import Mathlib

/-!
Shallow embedding of the contract-management web application's edge functions
and client-side helpers, with theorems checking the natural-language
specification against the code.

Conventions of the embedding:
* JSON values are modelled by the inductive `JVal`; JSON round-trips
  (`JSON.stringify` then `JSON.parse` of the same value) are identities, so a
  handler that re-serialises an upstream JSON body is modelled as passing the
  `JVal` through unchanged.
* `Deno.env.get` results are `Option String`; JavaScript falsiness of a
  possibly-missing string (`undefined`, `null` or `""`) is `strFalsy`.
* A `fetch` call is modelled by handing the handler the outcome the upstream
  would produce (`Except String UpstreamResp`: a network-level rejection
  carries its message, otherwise a status plus the body in its three
  consumable views).  Each handler returns its `HttpResponse` together with a
  `Bool` recording whether the upstream was contacted.
* Thrown JavaScript errors are `Except.error` with the error message; the
  surrounding `try/catch` of each handler is folded into the match on them.
-/

namespace ContractApp

/-- JSON-like values, as produced by `JSON.parse` / consumed by
`JSON.stringify`.  Object fields are kept in insertion order. -/
inductive JVal where
  | null
  | bool (b : Bool)
  | num (n : Int)
  | str (s : String)
  | arr (xs : List JVal)
  | obj (fs : List (String × JVal))

/-- JavaScript truthiness of a `JVal` (used for `x || fallback`). -/
def JVal.truthy : JVal → Bool
  | .null => false
  | .bool b => b
  | .num n => decide (n ≠ 0)
  | .str s => decide (s ≠ "")
  | .arr _ => true
  | .obj _ => true

/-- `a || b` on JSON values. -/
def jvOr (a b : JVal) : JVal := if a.truthy then a else b

/-- Field lookup on a JSON object (`v.key`); `null` stands for both JSON
`null` and an absent key (`undefined`), which the code at hand never
distinguishes. -/
def JVal.get : JVal → String → JVal
  | .obj fs, k =>
    match fs.find? (fun p => p.1 = k) with
    | some p => p.2
    | none => .null
  | _, _ => .null

/-- Spreading a JSON value into an object literal (`{...v}`); non-objects
contribute no fields. -/
def JVal.spread : JVal → List (String × JVal)
  | .obj fs => fs
  | _ => []

/-- JavaScript falsiness of a possibly-missing string
(`undefined` / `null` / `""`). -/
def strFalsy : Option String → Bool
  | none => true
  | some s => decide (s = "")

/-- `s || dflt` on a possibly-missing string. -/
def strOr (o : Option String) (dflt : String) : String :=
  match o with
  | none => dflt
  | some s => if s = "" then dflt else s

/-- An HTTP response body: `null`, a JSON document, or raw bytes. -/
inductive Body where
  | empty
  | json (v : JVal)
  | bytes (b : List Nat)

/-- An HTTP response as constructed by `new Response(...)`. -/
structure HttpResponse where
  status : Nat
  headers : List (String × String)
  body : Body

/-- An upstream `fetch` response: its status plus the body in the three views
the code consumes (`response.json()`, `response.text()`,
`response.arrayBuffer()`). -/
structure UpstreamResp where
  status : Nat
  jsonBody : JVal
  textBody : String
  bufBody : List Nat

/-- `response.ok`: status in the 200–299 range. -/
def UpstreamResp.isOk (r : UpstreamResp) : Bool :=
  decide (200 ≤ r.status ∧ r.status < 300)

/-- The CORS headers shared by the chat-style edge functions. -/
def corsHeaders : List (String × String) :=
  [("Access-Control-Allow-Origin", "*"),
   ("Access-Control-Allow-Headers", "authorization, x-client-info, apikey, content-type")]

/-- `{ ...corsHeaders, "Content-Type": "application/json" }`. -/
def jsonHeaders : List (String × String) :=
  corsHeaders ++ [("Content-Type", "application/json")]

/-- A JSON error payload `{"error": msg}`. -/
def errBody (msg : String) : Body := .json (.obj [("error", .str msg)])

/-- The parsed body of a chat-style request: `{ query, history }`. -/
structure ChatReq where
  query : JVal
  history : Option JVal

/-- The `chat` edge function (`supabase/functions/chat/index.ts`).
Arguments: request method, `COMPLYFLOW_API_KEY`, the outcome of
`req.json()`, and the outcome the upstream `fetch` would have.  Returns the
response together with whether the upstream was contacted. -/
def chatHandler (method : String) (envKey : Option String)
    (reqBody : Except String ChatReq) (upstream : Except String UpstreamResp) :
    HttpResponse × Bool :=
  if method = "OPTIONS" then
    ({ status := 200, headers := corsHeaders, body := .empty }, false)
  else
    match reqBody with
    | .error e => ({ status := 500, headers := jsonHeaders, body := errBody e }, false)
    | .ok _ =>
      if strFalsy envKey then
        ({ status := 500, headers := jsonHeaders,
           body := errBody "COMPLYFLOW_API_KEY is not configured" }, false)
      else
        match upstream with
        | .error e => ({ status := 500, headers := jsonHeaders, body := errBody e }, true)
        | .ok u =>
          if u.isOk then
            ({ status := 200, headers := jsonHeaders, body := .json u.jsonBody }, true)
          else
            ({ status := u.status, headers := jsonHeaders,
               body := errBody ("API error: " ++ toString u.status) }, true)

/-- First version of the `contracts-chat` edge function
(`supabase/functions/contracts-chat/index.ts`, first `serve` block). -/
def contractsChatV1 (method : String) (envKey : Option String)
    (reqBody : Except String ChatReq) (upstream : Except String UpstreamResp) :
    HttpResponse × Bool :=
  if method = "OPTIONS" then
    ({ status := 200, headers := corsHeaders, body := .empty }, false)
  else
    match reqBody with
    | .error e => ({ status := 500, headers := jsonHeaders, body := errBody e }, false)
    | .ok _ =>
      if strFalsy envKey then
        ({ status := 500, headers := jsonHeaders,
           body := errBody "COMPLYFLOW_API_KEY is not configured" }, false)
      else
        match upstream with
        | .error e => ({ status := 500, headers := jsonHeaders, body := errBody e }, true)
        | .ok u =>
          if u.isOk then
            ({ status := 200, headers := jsonHeaders, body := .json u.jsonBody }, true)
          else
            ({ status := u.status, headers := jsonHeaders,
               body := errBody ("API error: " ++ toString u.status) }, true)

/-- The user-friendly error message chosen by the second `contracts-chat`
version for a non-ok upstream status. -/
def friendlyMessage (status : Nat) : String :=
  if status = 502 ∨ status = 504 then
    "The contracts service is temporarily unavailable. Please try again in a moment."
  else if status = 429 then
    "Too many requests. Please wait a moment before trying again."
  else
    "Failed to process your request"

/-- Second version of the `contracts-chat` edge function
(`supabase/functions/contracts-chat/index.ts`, second `serve` block); it
differs from the first only in the body it builds for a non-ok upstream. -/
def contractsChatV2 (method : String) (envKey : Option String)
    (reqBody : Except String ChatReq) (upstream : Except String UpstreamResp) :
    HttpResponse × Bool :=
  if method = "OPTIONS" then
    ({ status := 200, headers := corsHeaders, body := .empty }, false)
  else
    match reqBody with
    | .error e => ({ status := 500, headers := jsonHeaders, body := errBody e }, false)
    | .ok _ =>
      if strFalsy envKey then
        ({ status := 500, headers := jsonHeaders,
           body := errBody "COMPLYFLOW_API_KEY is not configured" }, false)
      else
        match upstream with
        | .error e => ({ status := 500, headers := jsonHeaders, body := errBody e }, true)
        | .ok u =>
          if u.isOk then
            ({ status := 200, headers := jsonHeaders, body := .json u.jsonBody }, true)
          else
            ({ status := u.status, headers := jsonHeaders,
               body := .json (.obj [("error", .str (friendlyMessage u.status)),
                                    ("status", .num u.status)]) }, true)

/-- Headers of the `regulatory-digest` PDF success response. -/
def pdfHeaders : List (String × String) :=
  corsHeaders ++ [("Content-Type", "application/pdf"),
                  ("Content-Disposition", "attachment; filename=regulatory-digest.pdf")]

/-- The `regulatory-digest` edge function
(`supabase/functions/regulatory-digest/index.ts`).  `format` is the `format`
query parameter (`none` when absent). -/
def regulatoryDigest (method : String) (envKey : Option String)
    (format : Option String) (upstream : Except String UpstreamResp) :
    HttpResponse × Bool :=
  if method = "OPTIONS" then
    ({ status := 200, headers := corsHeaders, body := .empty }, false)
  else if strFalsy envKey then
    ({ status := 500, headers := jsonHeaders, body := errBody "API key not configured" }, false)
  else
    match upstream with
    | .error e => ({ status := 500, headers := jsonHeaders, body := errBody e }, true)
    | .ok u =>
      if u.isOk then
        if strOr format "json" = "pdf" then
          ({ status := 200, headers := pdfHeaders, body := .bytes u.bufBody }, true)
        else
          ({ status := 200, headers := jsonHeaders, body := .json u.jsonBody }, true)
      else
        ({ status := u.status, headers := jsonHeaders,
           body := errBody ("API error: " ++ toString u.status) }, true)

/-- The environment variables read by the `contract-api` edge functions. -/
structure AirtableEnv where
  apiKey : Option String
  baseId : Option String
  tableName : Option String
  complyflowKey : Option String

/-- The parsed JSON body of a `contract-api` request
(`body.action`, `body.id`, `body.field_name`, `body.original_value`,
`body.new_value`). -/
structure CApiBody where
  action : Option String
  id : Option String
  fieldName : Option String
  originalValue : JVal
  newValue : JVal

/-- A `contract-api` request: either multipart form data (with the `action`
header and the `file` form field, the latter abstracted to its name) or a
JSON body (whose parse may fail). -/
inductive CApiReq where
  | formReq (actionHeader : Option String) (file : Option String)
  | jsonReq (body : Except String CApiBody)

/-- CORS headers of the `contract-api` edge functions (they additionally
allow the `action` header). -/
def contractApiCors : List (String × String) :=
  [("Access-Control-Allow-Origin", "*"),
   ("Access-Control-Allow-Headers", "authorization, x-client-info, apikey, content-type, action")]

/-- `{ ...corsHeaders, "Content-Type": "application/json" }` for
`contract-api`. -/
def contractApiJsonHeaders : List (String × String) :=
  contractApiCors ++ [("Content-Type", "application/json")]

/-- A `contract-api` JSON error response. -/
def capiErr (status : Nat) (msg : String) : HttpResponse :=
  { status := status, headers := contractApiJsonHeaders, body := errBody msg }

/-- A `contract-api` JSON success response. -/
def capiOk (v : JVal) : HttpResponse :=
  { status := 200, headers := contractApiJsonHeaders, body := .json v }

/-- `{"success": true}`. -/
def successBody : JVal := .obj [("success", .bool true)]

/-- The `'get'` record transformation of the Airtable `contract-api`:
`{ id: record.id, fields: record.fields, created_time: record.createdTime }`. -/
def airtableGetRecord (record : JVal) : JVal :=
  .obj [("id", record.get "id"),
        ("fields", record.get "fields"),
        ("created_time", record.get "createdTime")]

/-- The `switch (action)` of the Airtable-backed `contract-api`
(`supabase/functions/contract-api/index.ts`): `'get'`, `'mark-reviewed'`,
`'update-field'`, the 501 `'upload'` stub, and the `'Invalid action'`
default. -/
def contractApiAirtableAction (action contractId fieldName : Option String)
    (upstream : Except String UpstreamResp) : HttpResponse × Bool :=
  match action with
  | some "get" =>
    if strFalsy contractId then (capiErr 400 "Contract ID required", false)
    else
      match upstream with
      | .error e => (capiErr 500 e, true)
      | .ok u =>
        if u.isOk then (capiOk (airtableGetRecord u.jsonBody), true)
        else (capiErr u.status "Failed to fetch contract from Airtable", true)
  | some "mark-reviewed" =>
    if strFalsy contractId then (capiErr 400 "Contract ID required", false)
    else
      match upstream with
      | .error e => (capiErr 500 e, true)
      | .ok u =>
        if u.isOk then (capiOk successBody, true)
        else (capiErr u.status "Failed to update contract status", true)
  | some "update-field" =>
    if strFalsy contractId then (capiErr 400 "Contract ID required", false)
    else if strFalsy fieldName then (capiErr 400 "Field name required", false)
    else
      match upstream with
      | .error e => (capiErr 500 e, true)
      | .ok u =>
        if u.isOk then (capiOk successBody, true)
        else (capiErr u.status "Failed to update field", true)
  | some "upload" => (capiErr 501 "Upload not implemented for Airtable", false)
  | _ => (capiErr 400 "Invalid action", false)

/-- The Airtable-backed `contract-api` edge function
(`supabase/functions/contract-api/index.ts`).  Its `'upload'` action is a
stub that answers 501.  `upstream` is the outcome the (single) Airtable
`fetch` of the selected action would have; the returned flag records whether
that fetch was performed. -/
def contractApiAirtable (method : String) (env : AirtableEnv) (req : CApiReq)
    (upstream : Except String UpstreamResp) : HttpResponse × Bool :=
  if method = "OPTIONS" then
    ({ status := 200, headers := contractApiCors, body := .empty }, false)
  else if strFalsy env.apiKey ∨ strFalsy env.baseId ∨ strFalsy env.tableName then
    (capiErr 500 "Airtable not configured", false)
  else
    match req with
    | .jsonReq (.error e) => (capiErr 500 e, false)
    | .jsonReq (.ok b) =>
      contractApiAirtableAction b.action b.id b.fieldName upstream
    | .formReq hdr _ =>
      contractApiAirtableAction (some (strOr hdr "upload")) none none upstream

/-- The outcome of the `'upload'` `fetch` with its 120-second abort timer:
an abort, a network rejection, or an upstream response. -/
inductive FetchOutcome where
  | timeout
  | err (e : String)
  | resp (u : UpstreamResp)

/-- The `'upload'` record transformation of the ComplyFlow-backed
`contract-api` (`src/unnamed/part_001`): the upstream extraction result is
reshaped into a `ContractRecord`, spreading `extraction` and
`computed_dates` into `fields`. -/
def uploadRecord (ur : JVal) : JVal :=
  .obj [("id", ur.get "contract_id"),
        ("fields", .obj (("filename", ur.get "filename") ::
          ((ur.get "extraction").spread ++ (ur.get "computed_dates").spread ++
           [("status", jvOr (ur.get "status") (.str "under_review"))]))),
        ("created_time", ur.get "created_at")]

/-- The `'upload'` action of the ComplyFlow-backed `contract-api`
(`src/unnamed/part_001`, first `serve` block).  `fileAccess` is the outcome
of `await req.formData()` followed by `formData.get('file')` (an exception
for a non-multipart body, otherwise the optional file); `uploadUpstream` is
the outcome of the ComplyFlow `fetch` with its abort timer. -/
def contractApiUploadAction (complyflowKey : Option String)
    (fileAccess : Except String (Option String)) (uploadUpstream : FetchOutcome) :
    HttpResponse × Bool :=
  if strFalsy complyflowKey then (capiErr 500 "ComplyFlow API not configured", false)
  else
    match fileAccess with
    | .error e => (capiErr 500 e, false)
    | .ok none => (capiErr 400 "No file provided", false)
    | .ok (some _) =>
      match uploadUpstream with
      | .timeout =>
        (capiErr 504 "Upload timed out - the PDF processing is taking longer than expected. Please try again.", true)
      | .err e => (capiErr 500 e, true)
      | .resp u =>
        if u.isOk then (capiOk (uploadRecord u.jsonBody), true)
        else (capiErr u.status ("Upload failed: " ++ u.textBody), true)

/-- The `switch (action)` of the ComplyFlow-upload variant of
`contract-api` (`src/unnamed/part_001`, first `serve` block): same as
`contractApiAirtableAction` except for the `'upload'` case. -/
def contractApiUploadVersionAction (complyflowKey : Option String)
    (action contractId fieldName : Option String)
    (upstream : Except String UpstreamResp)
    (fileAccess : Except String (Option String)) (uploadUpstream : FetchOutcome) :
    HttpResponse × Bool :=
  match action with
  | some "get" =>
    if strFalsy contractId then (capiErr 400 "Contract ID required", false)
    else
      match upstream with
      | .error e => (capiErr 500 e, true)
      | .ok u =>
        if u.isOk then (capiOk (airtableGetRecord u.jsonBody), true)
        else (capiErr u.status "Failed to fetch contract from Airtable", true)
  | some "mark-reviewed" =>
    if strFalsy contractId then (capiErr 400 "Contract ID required", false)
    else
      match upstream with
      | .error e => (capiErr 500 e, true)
      | .ok u =>
        if u.isOk then (capiOk successBody, true)
        else (capiErr u.status "Failed to update contract status", true)
  | some "update-field" =>
    if strFalsy contractId then (capiErr 400 "Contract ID required", false)
    else if strFalsy fieldName then (capiErr 400 "Field name required", false)
    else
      match upstream with
      | .error e => (capiErr 500 e, true)
      | .ok u =>
        if u.isOk then (capiOk successBody, true)
        else (capiErr u.status "Failed to update field", true)
  | some "upload" =>
    contractApiUploadAction complyflowKey fileAccess uploadUpstream
  | _ => (capiErr 400 "Invalid action", false)

/-- The ComplyFlow-upload variant of the `contract-api` edge function
(`src/unnamed/part_001`, first `serve` block): identical to
`contractApiAirtable` except that `'upload'` forwards the file to the
ComplyFlow extraction endpoint.  `formDataE` is the runtime error message
`req.formData()` throws on a non-multipart body. -/
def contractApiUploadVersion (method : String) (env : AirtableEnv) (req : CApiReq)
    (upstream : Except String UpstreamResp) (uploadUpstream : FetchOutcome)
    (formDataE : String) : HttpResponse × Bool :=
  if method = "OPTIONS" then
    ({ status := 200, headers := contractApiCors, body := .empty }, false)
  else if strFalsy env.apiKey ∨ strFalsy env.baseId ∨ strFalsy env.tableName then
    (capiErr 500 "Airtable not configured", false)
  else
    match req with
    | .jsonReq (.error e) => (capiErr 500 e, false)
    | .jsonReq (.ok b) =>
      contractApiUploadVersionAction env.complyflowKey b.action b.id b.fieldName upstream
        (.error formDataE) uploadUpstream
    | .formReq hdr file =>
      contractApiUploadVersionAction env.complyflowKey (some (strOr hdr "upload")) none none
        upstream (.ok file) uploadUpstream

/-! ## Predicates used by the claims about the edge functions -/

/-- The response carries the CORS header `Access-Control-Allow-Origin: *`. -/
def hasCors (r : HttpResponse) : Prop :=
  ("Access-Control-Allow-Origin", "*") ∈ r.headers

/-- The response body is a JSON object carrying an `error` string field. -/
def isJsonError (r : HttpResponse) : Prop :=
  ∃ fs, r.body = .json (.obj fs) ∧ ∃ s, ("error", JVal.str s) ∈ fs

theorem isJsonError_errBody (st : Nat) (hs : List (String × String)) (m : String) :
    isJsonError { status := st, headers := hs, body := errBody m } :=
  ⟨[("error", .str m)], rfl, m, by simp⟩

/-- The proxy contract of a chat-style edge function: a missing key yields a
500 JSON error without contacting the upstream; a configured key with an ok
upstream yields the upstream JSON body unchanged; a non-ok upstream yields a
JSON error carrying the upstream status. -/
def proxySpec
    (h : String → Option String → Except String ChatReq →
      Except String UpstreamResp → HttpResponse × Bool) : Prop :=
  (∀ m k b u, m ≠ "OPTIONS" → strFalsy k = true →
    (h m k b u).1.status = 500 ∧ isJsonError (h m k b u).1 ∧ (h m k b u).2 = false) ∧
  (∀ m k cb v, m ≠ "OPTIONS" → strFalsy k = false → v.isOk = true →
    h m k (.ok cb) (.ok v) =
      ({ status := 200, headers := jsonHeaders, body := .json v.jsonBody }, true)) ∧
  (∀ m k cb v, m ≠ "OPTIONS" → strFalsy k = false → v.isOk = false →
    (h m k (.ok cb) (.ok v)).1.status = v.status ∧
    isJsonError (h m k (.ok cb) (.ok v)).1 ∧ (h m k (.ok cb) (.ok v)).2 = true)

/-- The proxy contract of `regulatory-digest`: same shape as `proxySpec`,
with the success body dispatched on the `format` parameter (JSON view for
`json`, byte view for `pdf`), in both cases the upstream body unchanged. -/
def digestSpec : Prop :=
  (∀ m k f u, m ≠ "OPTIONS" → strFalsy k = true →
    (regulatoryDigest m k f u).1.status = 500 ∧ isJsonError (regulatoryDigest m k f u).1 ∧
    (regulatoryDigest m k f u).2 = false) ∧
  (∀ m k f v, m ≠ "OPTIONS" → strFalsy k = false → v.isOk = true →
    regulatoryDigest m k f (.ok v) =
      (if strOr f "json" = "pdf" then
        { status := 200, headers := pdfHeaders, body := .bytes v.bufBody }
      else
        { status := 200, headers := jsonHeaders, body := .json v.jsonBody }, true)) ∧
  (∀ m k f v, m ≠ "OPTIONS" → strFalsy k = false → v.isOk = false →
    (regulatoryDigest m k f (.ok v)).1.status = v.status ∧
    isJsonError (regulatoryDigest m k f (.ok v)).1 ∧
    (regulatoryDigest m k f (.ok v)).2 = true)

theorem chatHandler_proxySpec : proxySpec chatHandler := by
  refine ⟨?_, ?_, ?_⟩
  · intro m k b u hm hk
    rcases b with e | cb <;>
      simp [chatHandler, hm, hk] <;>
      exact isJsonError_errBody _ _ _
  · intro m k cb v hm hk hok
    simp [chatHandler, hm, hk, hok]
  · intro m k cb v hm hk hok
    simp [chatHandler, hm, hk, hok]
    exact isJsonError_errBody _ _ _

theorem contractsChatV1_proxySpec : proxySpec contractsChatV1 := by
  refine ⟨?_, ?_, ?_⟩
  · intro m k b u hm hk
    rcases b with e | cb <;>
      simp [contractsChatV1, hm, hk] <;>
      exact isJsonError_errBody _ _ _
  · intro m k cb v hm hk hok
    simp [contractsChatV1, hm, hk, hok]
  · intro m k cb v hm hk hok
    simp [contractsChatV1, hm, hk, hok]
    exact isJsonError_errBody _ _ _

theorem contractsChatV2_proxySpec : proxySpec contractsChatV2 := by
  refine ⟨?_, ?_, ?_⟩
  · intro m k b u hm hk
    rcases b with e | cb <;>
      simp [contractsChatV2, hm, hk] <;>
      exact isJsonError_errBody _ _ _
  · intro m k cb v hm hk hok
    simp [contractsChatV2, hm, hk, hok]
  · intro m k cb v hm hk hok
    simp [contractsChatV2, hm, hk, hok, isJsonError]

theorem regulatoryDigest_digestSpec : digestSpec := by
  refine ⟨?_, ?_, ?_⟩
  · intro m k f u hm hk
    simp [regulatoryDigest, hm, hk]
    try exact isJsonError_errBody _ _ _
  · intro m k f v hm hk hok
    by_cases hf : strOr f "json" = "pdf" <;>
      simp [regulatoryDigest, hm, hk, hok, hf]
  · intro m k f v hm hk hok
    simp [regulatoryDigest, hm, hk, hok]
    try exact isJsonError_errBody _ _ _

theorem cors_mem_corsHeaders :
    ("Access-Control-Allow-Origin", "*") ∈ corsHeaders := by simp [corsHeaders]

theorem cors_mem_jsonHeaders :
    ("Access-Control-Allow-Origin", "*") ∈ jsonHeaders := by
  simp [jsonHeaders, corsHeaders]

theorem cors_mem_pdfHeaders :
    ("Access-Control-Allow-Origin", "*") ∈ pdfHeaders := by
  simp [pdfHeaders, corsHeaders]

theorem cors_mem_contractApiCors :
    ("Access-Control-Allow-Origin", "*") ∈ contractApiCors := by simp [contractApiCors]

theorem cors_mem_contractApiJsonHeaders :
    ("Access-Control-Allow-Origin", "*") ∈ contractApiJsonHeaders := by
  simp [contractApiJsonHeaders, contractApiCors]

theorem chatHandler_hasCors (m : String) (k : Option String)
    (b : Except String ChatReq) (u : Except String UpstreamResp) :
    hasCors (chatHandler m k b u).1 := by
  unfold chatHandler
  repeat' split
  all_goals first
    | exact cors_mem_corsHeaders
    | exact cors_mem_jsonHeaders

theorem contractsChatV1_hasCors (m : String) (k : Option String)
    (b : Except String ChatReq) (u : Except String UpstreamResp) :
    hasCors (contractsChatV1 m k b u).1 := by
  unfold contractsChatV1
  repeat' split
  all_goals first
    | exact cors_mem_corsHeaders
    | exact cors_mem_jsonHeaders

theorem contractsChatV2_hasCors (m : String) (k : Option String)
    (b : Except String ChatReq) (u : Except String UpstreamResp) :
    hasCors (contractsChatV2 m k b u).1 := by
  unfold contractsChatV2
  repeat' split
  all_goals first
    | exact cors_mem_corsHeaders
    | exact cors_mem_jsonHeaders

theorem regulatoryDigest_hasCors (m : String) (k : Option String)
    (f : Option String) (u : Except String UpstreamResp) :
    hasCors (regulatoryDigest m k f u).1 := by
  unfold regulatoryDigest
  repeat' split
  all_goals first
    | exact cors_mem_corsHeaders
    | exact cors_mem_jsonHeaders
    | exact cors_mem_pdfHeaders

theorem contractApiAirtable_hasCors (m : String) (env : AirtableEnv)
    (req : CApiReq) (u : Except String UpstreamResp) :
    hasCors (contractApiAirtable m env req u).1 := by
  unfold contractApiAirtable contractApiAirtableAction capiErr capiOk
  repeat' split
  all_goals first
    | exact cors_mem_contractApiCors
    | exact cors_mem_contractApiJsonHeaders

theorem contractApiUploadVersion_hasCors (m : String) (env : AirtableEnv)
    (req : CApiReq) (u : Except String UpstreamResp) (uu : FetchOutcome)
    (fe : String) :
    hasCors (contractApiUploadVersion m env req u uu fe).1 := by
  unfold contractApiUploadVersion contractApiUploadVersionAction
    contractApiUploadAction capiErr capiOk
  repeat' split
  all_goals first
    | exact cors_mem_contractApiCors
    | exact cors_mem_contractApiJsonHeaders

/-- C2: every response produced by every embedded edge function — the
OPTIONS preflight, the success response, the upstream-error response, the
missing-configuration response, and the caught-exception response — carries
the CORS header `Access-Control-Allow-Origin: *`. -/
theorem every_edge_response_has_cors :
    (∀ m k b u, hasCors (chatHandler m k b u).1) ∧
    (∀ m k b u, hasCors (contractsChatV1 m k b u).1) ∧
    (∀ m k b u, hasCors (contractsChatV2 m k b u).1) ∧
    (∀ m k f u, hasCors (regulatoryDigest m k f u).1) ∧
    (∀ m env req u, hasCors (contractApiAirtable m env req u).1) ∧
    (∀ m env req u uu fe, hasCors (contractApiUploadVersion m env req u uu fe).1) :=
  ⟨chatHandler_hasCors, contractsChatV1_hasCors, contractsChatV2_hasCors,
   regulatoryDigest_hasCors, contractApiAirtable_hasCors,
   contractApiUploadVersion_hasCors⟩

/-- C1: for every non-preflight request to `chat`, `contracts-chat` (both
versions) or `regulatory-digest`: a missing API key yields a JSON error with
status 500 without contacting the upstream; a configured key with a
successful upstream yields the upstream body unchanged; a non-ok upstream
yields a translated JSON error carrying the upstream's status code. -/
theorem edge_proxy_contract :
    proxySpec chatHandler ∧ proxySpec contractsChatV1 ∧
    proxySpec contractsChatV2 ∧ digestSpec :=
  ⟨chatHandler_proxySpec, contractsChatV1_proxySpec,
   contractsChatV2_proxySpec, regulatoryDigest_digestSpec⟩

/-- A sample successful upstream response. -/
def sampleOk : UpstreamResp := ⟨200, .str "ans", "", []⟩

/-- A sample failed upstream response. -/
def sampleBad : UpstreamResp := ⟨503, .null, "oops", []⟩

theorem edge_proxy_contract_witness :
    chatHandler "POST" (some "key") (.ok ⟨.str "q", none⟩) (.ok sampleOk) =
      ({ status := 200, headers := jsonHeaders, body := .json (.str "ans") }, true) ∧
    (chatHandler "POST" none (.error "boom") (.ok sampleOk)).1.status = 500 ∧
    (regulatoryDigest "GET" none none (.ok sampleOk)).2 = false ∧
    (contractsChatV2 "POST" (some "key") (.ok ⟨.str "q", none⟩) (.ok sampleBad)).1.status = 503 :=
  ⟨edge_proxy_contract.1.2.1 "POST" (some "key") ⟨.str "q", none⟩ sampleOk
      (by decide) (by decide) (by decide),
   (edge_proxy_contract.1.1 "POST" none (.error "boom") (.ok sampleOk)
      (by decide) (by decide)).1,
   (edge_proxy_contract.2.2.2.1 "GET" none none (.ok sampleOk)
      (by decide) (by decide)).2.2,
   (edge_proxy_contract.2.2.1.2.2 "POST" (some "key") ⟨.str "q", none⟩ sampleBad
      (by decide) (by decide) (by decide)).1⟩

/-- The inputs on which the two `contracts-chat` versions reach the
non-ok-upstream branch, the only branch where their outputs differ. -/
def ccNonOkPath (m : String) (k : Option String) (b : Except String ChatReq)
    (u : Except String UpstreamResp) : Prop :=
  m ≠ "OPTIONS" ∧ strFalsy k = false ∧ (∃ cb, b = .ok cb) ∧
  ∃ v, u = .ok v ∧ v.isOk = false

/-- C7: the two `contracts-chat` versions agree on status, headers and
upstream contact for every request; they return identical responses outside
the non-ok-upstream branch, and on that branch both return JSON error
payloads with the upstream's status. -/
theorem contractsChat_versions_agree (m : String) (k : Option String)
    (b : Except String ChatReq) (u : Except String UpstreamResp) :
    (contractsChatV1 m k b u).1.status = (contractsChatV2 m k b u).1.status ∧
    (contractsChatV1 m k b u).1.headers = (contractsChatV2 m k b u).1.headers ∧
    (contractsChatV1 m k b u).2 = (contractsChatV2 m k b u).2 ∧
    (¬ ccNonOkPath m k b u → contractsChatV1 m k b u = contractsChatV2 m k b u) ∧
    (ccNonOkPath m k b u →
      isJsonError (contractsChatV1 m k b u).1 ∧ isJsonError (contractsChatV2 m k b u).1) := by
  by_cases hm : m = "OPTIONS"
  · simp [contractsChatV1, contractsChatV2, ccNonOkPath, hm]
  rcases b with e | cb
  · simp [contractsChatV1, contractsChatV2, ccNonOkPath, hm]
  by_cases hk : strFalsy k
  · simp [contractsChatV1, contractsChatV2, ccNonOkPath, hm, hk]
  rcases u with e2 | v
  · simp [contractsChatV1, contractsChatV2, ccNonOkPath, hm, hk]
  by_cases ho : v.isOk
  · simp [contractsChatV1, contractsChatV2, ccNonOkPath, hm, hk, ho]
  · simp [contractsChatV1, contractsChatV2, ccNonOkPath, hm, hk, ho, isJsonError, errBody]

theorem contractsChat_versions_agree_witness :
    isJsonError (contractsChatV1 "POST" (some "key") (.ok ⟨.null, none⟩) (.ok sampleBad)).1 ∧
    isJsonError (contractsChatV2 "POST" (some "key") (.ok ⟨.null, none⟩) (.ok sampleBad)).1 :=
  (contractsChat_versions_agree "POST" (some "key") (.ok ⟨.null, none⟩)
      (.ok sampleBad)).2.2.2.2
    ⟨by decide, by decide, ⟨_, rfl⟩, sampleBad, rfl, by decide⟩

/-! ## C8: the upload action -/

/-- The body is a `ContractRecord`-shaped JSON object
(`{ id, fields, created_time }`). -/
def isContractRecord (b : Body) : Prop :=
  ∃ i f c, b = .json (.obj [("id", i), ("fields", f), ("created_time", c)])

/-- C8 counterexample: with every environment variable configured, a
multipart file-upload request to the `contract-api` edge function of
`supabase/functions/contract-api/index.ts` answers 501 with an error
payload and never contacts the extraction service — it does not return a
contract record. -/
theorem contractApi_upload_returns_501 :
    contractApiAirtable "POST" ⟨some "k", some "b", some "t", some "c"⟩
      (.formReq none (some "contract.pdf")) (.ok sampleOk) =
      (capiErr 501 "Upload not implemented for Airtable", false) ∧
    ¬ isContractRecord (contractApiAirtable "POST" ⟨some "k", some "b", some "t", some "c"⟩
      (.formReq none (some "contract.pdf")) (.ok sampleOk)).1.body := by
  constructor
  · rfl
  · rintro ⟨i, f, c, h⟩
    simp [contractApiAirtable, contractApiAirtableAction, strFalsy, strOr, capiErr,
      errBody] at h

/-- C8 (amended): the ComplyFlow-backed variant of `contract-api`
(`src/unnamed/part_001`) does forward the uploaded file: a multipart
request whose effective action is `upload`, with the ComplyFlow key
configured, a file present, and an ok extraction-service response, is
answered with the reshaped contract record built from the extracted
metadata. -/
theorem uploadVersion_upload_returns_record (m : String) (env : AirtableEnv)
    (hdr : Option String) (f : String) (u : UpstreamResp)
    (up : Except String UpstreamResp) (fe : String)
    (hm : m ≠ "OPTIONS")
    (hk : strFalsy env.apiKey = false) (hb : strFalsy env.baseId = false)
    (ht : strFalsy env.tableName = false) (hc : strFalsy env.complyflowKey = false)
    (hact : strOr hdr "upload" = "upload") (hu : u.isOk = true) :
    contractApiUploadVersion m env (.formReq hdr (some f)) up (.resp u) fe =
      (capiOk (uploadRecord u.jsonBody), true) ∧
    isContractRecord
      (contractApiUploadVersion m env (.formReq hdr (some f)) up (.resp u) fe).1.body := by
  have hmain : contractApiUploadVersion m env (.formReq hdr (some f)) up (.resp u) fe =
      (capiOk (uploadRecord u.jsonBody), true) := by
    simp [contractApiUploadVersion, contractApiUploadVersionAction,
      contractApiUploadAction, hm, hk, hb, ht, hc, hact, hu]
  refine ⟨hmain, ?_⟩
  rw [hmain]
  exact ⟨_, _, _, rfl⟩

/-- A sample successful extraction-service response for the upload
witness. -/
def sampleUploadResp : UpstreamResp :=
  { status := 200,
    jsonBody := .obj [("contract_id", .str "c1"), ("filename", .str "a.pdf"),
      ("extraction", .obj [("parties", .str "[\x22A\x22,\x22B\x22]")]),
      ("computed_dates", .obj [("notice_deadline", .str "2013-11-01")]),
      ("status", .str "under_review"), ("created_at", .str "2013-10-01")],
    textBody := "", bufBody := [] }

theorem uploadVersion_upload_returns_record_witness :
    contractApiUploadVersion "POST" ⟨some "k", some "b", some "t", some "c"⟩
      (.formReq none (some "contract.pdf")) (.ok sampleOk) (.resp sampleUploadResp) "e" =
      (capiOk (uploadRecord sampleUploadResp.jsonBody), true) :=
  (uploadVersion_upload_returns_record "POST" ⟨some "k", some "b", some "t", some "c"⟩
    none "contract.pdf" sampleUploadResp (.ok sampleOk) "e"
    (by decide) (by decide) (by decide) (by decide) (by decide) (by decide) rfl).1

/-! ## The client API helpers (`src/lib/api.ts`) -/

mutual

/-- `JSON.stringify` on the JSON values of this development (string escaping
elided — the code only ever compares the resulting strings for equality). -/
def JVal.encode : JVal → String
  | .null => "null"
  | .bool b => cond b "true" "false"
  | .num n => toString n
  | .str s => "\x22" ++ s ++ "\x22"
  | .arr xs => "[" ++ encodeItems xs ++ "]"
  | .obj fs => "\x7b" ++ encodeFields fs ++ "\x7d"

/-- Comma-separated encoding of JSON array items. -/
def encodeItems : List JVal → String
  | [] => ""
  | [x] => x.encode
  | x :: y :: xs => x.encode ++ "," ++ encodeItems (y :: xs)

/-- Comma-separated encoding of JSON object fields. -/
def encodeFields : List (String × JVal) → String
  | [] => ""
  | [(k, v)] => "\x22" ++ k ++ "\x22:" ++ v.encode
  | (k, v) :: q :: fs => "\x22" ++ k ++ "\x22:" ++ v.encode ++ "," ++ encodeFields (q :: fs)

end

/-- `updateField` from `src/lib/api.ts`: a no-op when the JSON encodings of
the old and new value agree, otherwise one invocation of the `contract-api`
edge function.  `net` is the outcome of that invocation (its `error` result
and an `error` field in the returned data are folded into `Except.error`).
Returns the outcome together with whether the edge function was invoked. -/
def updateField (contractId fieldName : String) (originalValue newValue : JVal)
    (net : Except String Unit) : Except String Unit × Bool :=
  if originalValue.encode = newValue.encode then (.ok (), false)
  else (net, true)

/-- C9: `updateField` is a no-op when nothing changed — equal JSON
encodings mean it returns success immediately and the edge function is
never invoked. -/
theorem updateField_noop_when_unchanged (cid f : String) (o n : JVal)
    (net : Except String Unit) (h : o.encode = n.encode) :
    updateField cid f o n net = (.ok (), false) := by
  simp [updateField, h]

theorem updateField_noop_when_unchanged_witness :
    updateField "rec1" "governing_law" (.str "NY") (.str "NY") (.error "network down") =
      (.ok (), false) :=
  updateField_noop_when_unchanged "rec1" "governing_law" (.str "NY") (.str "NY")
    (.error "network down") rfl

/-! ## C5: the contract editor's debounced save (`src/pages/ContractEditor.tsx`) -/

/-- The editor's save indicator states. -/
inductive SaveStatus where
  | idle
  | saving
  | saved
  | error
deriving DecidableEq

/-- A contract value in the editor: its fields in insertion order. -/
abbrev ContractFields := List (String × JVal)

/-- `{ ...prev, [field]: value }`: replace the field in place, or append it
when absent. -/
def setField (fs : ContractFields) (k : String) (v : JVal) : ContractFields :=
  if fs.any (fun p => p.1 = k) then
    fs.map (fun p => if p.1 = k then (k, v) else p)
  else fs ++ [(k, v)]

/-- Reading a field of a contract value. -/
def getField (fs : ContractFields) (k : String) : Option JVal :=
  match fs.find? (fun p => p.1 = k) with
  | some p => some p.2
  | none => none

theorem getField_setField (fs : ContractFields) (k : String) (v : JVal) :
    getField (setField fs k v) k = some v := by
  unfold getField setField
  by_cases h : fs.any (fun p => p.1 = k)
  · simp only [h, if_true]
    induction fs with
    | nil => simp at h
    | cons p t ih =>
      by_cases hp : p.1 = k
      · simp [List.find?, hp]
      · have h2 : t.any (fun p => p.1 = k) = true := by
          simpa [List.any_cons, hp] using h
        simpa [List.find?, hp] using ih h2
  · simp only [h, if_false]
    induction fs with
    | nil => simp [List.find?]
    | cons p t ih =>
      simp only [List.any_cons, Bool.or_eq_true, not_or] at h
      have hp : ¬ p.1 = k := by simpa using h.1
      simpa [List.find?, hp] using ih (by simpa using h.2)

/-- The contract-editor state touched by `debouncedSave`: the editable
contract, the snapshot of its last saved values, and the save indicator. -/
structure EditorState where
  contract : Option ContractFields
  originalContract : Option ContractFields
  saveStatus : SaveStatus

/-- `debouncedSave` from `src/pages/ContractEditor.tsx`: it runs
`updateField` and, on success, marks the status `saved` and moves the new
value into the original-contract snapshot; on failure it marks the status
`error` and reverts the edited field of the contract state to its original
value.  (The two-second timer that later resets `saved` to `idle`, and the
toasts, are not part of the resulting state.) -/
def debouncedSave (id : Option String) (fieldName : String)
    (originalValue newValue : JVal) (net : Except String Unit)
    (st : EditorState) : EditorState :=
  if strFalsy id then st
  else
    match (updateField (id.getD "") fieldName originalValue newValue net).1 with
    | .ok _ =>
      { st with
        saveStatus := .saved
        originalContract := st.originalContract.map (fun c => setField c fieldName newValue) }
    | .error _ =>
      { st with
        saveStatus := .error
        contract := st.contract.map (fun c => setField c fieldName originalValue) }

/-- C5: the debounced save reverts on failure — a failed save sets the
status to `error` and puts the original value back into the edited field of
the contract state; a successful save sets the status to `saved` and moves
the new value into the original-contract snapshot. -/
theorem debouncedSave_revert_or_commit (id : Option String) (f : String)
    (o n : JVal) (net : Except String Unit) (st : EditorState)
    (hid : strFalsy id = false) :
    (∀ e, net = .error e → o.encode ≠ n.encode →
      (debouncedSave id f o n net st).saveStatus = .error ∧
      (debouncedSave id f o n net st).contract
        = st.contract.map (fun c => setField c f o) ∧
      (∀ c, st.contract = some c →
        getField (((debouncedSave id f o n net st).contract).getD []) f = some o)) ∧
    ((updateField (id.getD "") f o n net).1 = .ok () →
      (debouncedSave id f o n net st).saveStatus = .saved ∧
      (debouncedSave id f o n net st).originalContract
        = st.originalContract.map (fun c => setField c f n) ∧
      (∀ c, st.originalContract = some c →
        getField (((debouncedSave id f o n net st).originalContract).getD []) f = some n)) := by
  constructor
  · intro e hnet hne
    have hcall : (updateField (id.getD "") f o n net).1 = .error e := by
      simp [updateField, hne, hnet]
    have hrun : debouncedSave id f o n net st =
        { st with
          saveStatus := .error
          contract := st.contract.map (fun c => setField c f o) } := by
      unfold debouncedSave
      rw [hcall]
      simp [hid]
    refine ⟨by rw [hrun], by rw [hrun], ?_⟩
    intro c hc
    rw [hrun]
    simp [hc, getField_setField]
  · intro hcall
    have hrun : debouncedSave id f o n net st =
        { st with
          saveStatus := .saved
          originalContract := st.originalContract.map (fun c => setField c f n) } := by
      unfold debouncedSave
      rw [hcall]
      simp [hid]
    refine ⟨by rw [hrun], by rw [hrun], ?_⟩
    intro c hc
    rw [hrun]
    simp [hc, getField_setField]

theorem debouncedSave_revert_or_commit_witness :
    (debouncedSave (some "rec1") "governing_law" (.str "NY") (.str "CA")
      (.error "boom") ⟨some [("governing_law", .str "CA")],
        some [("governing_law", .str "NY")], .saving⟩).saveStatus = .error ∧
    getField ((debouncedSave (some "rec1") "governing_law" (.str "NY") (.str "CA")
      (.error "boom") ⟨some [("governing_law", .str "CA")],
        some [("governing_law", .str "NY")], .saving⟩).contract.getD [])
      "governing_law" = some (.str "NY") := by
  have h := (debouncedSave_revert_or_commit (some "rec1") "governing_law"
    (.str "NY") (.str "CA") (.error "boom")
    ⟨some [("governing_law", .str "CA")], some [("governing_law", .str "NY")], .saving⟩
    rfl).1 "boom" rfl (by decide)
  exact ⟨h.1, h.2.2 _ rfl⟩

/-! ## C10: chat conversation management (`src/hooks/useContractsChat.ts`,
matching code in `src/unnamed/part_010`) -/

/-- A chat message (sources and timestamps are irrelevant to the claims and
elided). -/
structure ChatMessage where
  role : String
  content : String

/-- A chat conversation. -/
structure Conversation where
  id : String
  title : String
  messages : List ChatMessage
  createdAt : Int

/-- The hook state touched by `createConversation` / `deleteConversation`. -/
structure ChatState where
  conversations : List Conversation
  activeConversationId : Option String

/-- `createConversation`: prepend a fresh conversation and make it active.
`newId` is the `crypto.randomUUID()` result and `now` the `new Date()`
timestamp; the new conversation's id is also returned. -/
def createConversation (newId : String) (now : Int) (st : ChatState) :
    ChatState × String :=
  ({ conversations :=
      { id := newId, title := "New Chat", messages := [], createdAt := now }
        :: st.conversations
     activeConversationId := some newId }, newId)

/-- `deleteConversation`: drop the conversation with the given id and clear
the active id if it pointed at it. -/
def deleteConversation (id : String) (st : ChatState) : ChatState :=
  { conversations := st.conversations.filter (fun c => c.id ≠ id)
    activeConversationId :=
      if st.activeConversationId = some id then none else st.activeConversationId }

/-- The active id, when set, names a conversation present in the list. -/
def activeIdConsistent (st : ChatState) : Prop :=
  ∀ a, st.activeConversationId = some a → ∃ c ∈ st.conversations, c.id = a

/-- C10: `createConversation` prepends a fresh `'New Chat'` conversation
with no messages and makes it active; after `deleteConversation id` no
conversation with that id remains, and if the deleted conversation was
active the active id becomes `none`; both operations preserve the
invariant that the active id refers to a conversation in the list. -/
theorem conversation_management_consistent :
    (∀ newId now st,
      (createConversation newId now st).1.conversations =
        { id := newId, title := "New Chat", messages := [], createdAt := now }
          :: st.conversations ∧
      (createConversation newId now st).1.activeConversationId = some newId) ∧
    (∀ id st c, c ∈ (deleteConversation id st).conversations → c.id ≠ id) ∧
    (∀ id st, st.activeConversationId = some id →
      (deleteConversation id st).activeConversationId = none) ∧
    (∀ st, activeIdConsistent st →
      (∀ newId now, activeIdConsistent (createConversation newId now st).1) ∧
      (∀ id, activeIdConsistent (deleteConversation id st))) := by
  refine ⟨fun newId now st => ⟨rfl, rfl⟩, ?_, ?_, ?_⟩
  · intro id st c hc
    have := (List.mem_filter.mp hc).2
    simpa using this
  · intro id st h
    simp [deleteConversation, h]
  · intro st hst
    constructor
    · intro newId now a ha
      simp only [createConversation] at ha
      exact ⟨_, List.mem_cons_self _ _, by simpa using ha⟩
    · intro id a ha
      simp only [deleteConversation] at ha
      by_cases hact : st.activeConversationId = some id
      · simp [hact] at ha
      · rw [if_neg hact] at ha
        obtain ⟨c, hc, hcid⟩ := hst a ha
        refine ⟨c, List.mem_filter.mpr ⟨hc, ?_⟩, hcid⟩
        have : a ≠ id := by
          intro h
          exact hact (h ▸ ha)
        simpa [hcid] using this

theorem conversation_management_consistent_witness :
    activeIdConsistent
      (deleteConversation "c2"
        ((createConversation "c1" 0 ⟨[], none⟩).1)) := by
  have hbase : activeIdConsistent (⟨[], none⟩ : ChatState) := by
    intro a ha
    simp at ha
  have h1 := (conversation_management_consistent.2.2.2 ⟨[], none⟩ hbase).1 "c1" 0
  exact (conversation_management_consistent.2.2.2 _ h1).2 "c2"

/-! ## C4: the 24-hour schema cache (`src/hooks/useAirtableSchema.ts`) -/

/-- The select-field options of the schema lookup. -/
abbrev SchemaFields := List (String × List String)

/-- A parsed localStorage cache entry (`{ selectFields, cachedAt }`). -/
structure CachedSchema where
  selectFields : SchemaFields
  cachedAt : Int

/-- The `airtable_schema` localStorage slot, through the eyes of
`JSON.parse`: absent, present but unparseable, or a parsed entry. -/
inductive StoreVal where
  | absent
  | unparseable
  | entry (c : CachedSchema)

/-- `CACHE_TTL = 24 * 60 * 60 * 1000`. -/
def CACHE_TTL : Int := 24 * 60 * 60 * 1000

/-- `getFromLocalStorage`: a parseable entry whose age exceeds the TTL is
removed and ignored; a fresh one is returned; parse failures are swallowed.
Returns the lookup result and the localStorage slot afterwards. -/
def getFromLocalStorage (now : Int) (s : StoreVal) :
    Option SchemaFields × StoreVal :=
  match s with
  | .absent => (none, s)
  | .unparseable => (none, s)
  | .entry c =>
    if now - c.cachedAt > CACHE_TTL then (none, .absent)
    else (some c.selectFields, s)

/-- `fetchSchema`: serve from the local cache when possible, otherwise call
the `contract-api` edge function (outcome `net`, with an invoke error or an
`error` payload folded into `Except.error`) and store a fresh entry on
success.  Returns the outcome, the localStorage slot afterwards, and
whether the network was used. -/
def fetchSchema (now : Int) (net : Except String SchemaFields) (s : StoreVal) :
    Except String SchemaFields × StoreVal × Bool :=
  match getFromLocalStorage now s with
  | (some sf, s2) => (.ok sf, s2, false)
  | (none, s2) =>
    match net with
    | .error e => (.error e, s2, true)
    | .ok d => (.ok d, .entry ⟨d, now⟩, true)

/-- C4: `fetchSchema` skips the network exactly when a parseable cache
entry at most 24 hours old exists, in which case it returns that entry's
`selectFields` unchanged; an older entry is removed from storage and the
lookup falls through to the network, whose successful result is stored
with the current timestamp. -/
theorem fetchSchema_cache_spec (now : Int) (net : Except String SchemaFields)
    (s : StoreVal) :
    ((fetchSchema now net s).2.2 = false ↔
      ∃ c, s = .entry c ∧ now - c.cachedAt ≤ CACHE_TTL) ∧
    (∀ c, s = .entry c → now - c.cachedAt ≤ CACHE_TTL →
      fetchSchema now net s = (.ok c.selectFields, s, false)) ∧
    (∀ c, s = .entry c → now - c.cachedAt > CACHE_TTL →
      getFromLocalStorage now s = (none, .absent) ∧
      (fetchSchema now net s).2.2 = true ∧
      (∀ d, net = .ok d → fetchSchema now net s = (.ok d, .entry ⟨d, now⟩, true))) := by
  refine ⟨?_, ?_, ?_⟩
  · constructor
    · intro h
      match s with
      | .absent => cases net <;> simp [fetchSchema, getFromLocalStorage] at h
      | .unparseable => cases net <;> simp [fetchSchema, getFromLocalStorage] at h
      | .entry c =>
        by_cases hexp : now - c.cachedAt > CACHE_TTL
        · cases net <;>
            simp [fetchSchema, getFromLocalStorage, hexp] at h
        · exact ⟨c, rfl, le_of_not_lt hexp⟩
    · rintro ⟨c, rfl, hfresh⟩
      simp [fetchSchema, getFromLocalStorage, not_lt.mpr hfresh]
  · rintro c rfl hfresh
    simp [fetchSchema, getFromLocalStorage, not_lt.mpr hfresh]
  · rintro c rfl hexp
    refine ⟨by simp [getFromLocalStorage, hexp], ?_, ?_⟩
    · cases net <;> simp [fetchSchema, getFromLocalStorage, hexp]
    · rintro d rfl
      simp [fetchSchema, getFromLocalStorage, hexp]

theorem fetchSchema_cache_spec_witness :
    fetchSchema 86400001 (.ok [("contract_type", ["license"])])
      (.entry ⟨[("contract_type", ["services"])], 0⟩) =
      (.ok [("contract_type", ["license"])],
       .entry ⟨[("contract_type", ["license"])], 86400001⟩, true) ∧
    fetchSchema 86400000 (.error "down")
      (.entry ⟨[("contract_type", ["services"])], 0⟩) =
      (.ok [("contract_type", ["services"])],
       .entry ⟨[("contract_type", ["services"])], 0⟩, false) :=
  ⟨((fetchSchema_cache_spec 86400001 (.ok [("contract_type", ["license"])])
      (.entry ⟨[("contract_type", ["services"])], 0⟩)).2.2 _ rfl
      (by norm_num [CACHE_TTL])).2.2 _ rfl,
   (fetchSchema_cache_spec 86400000 (.error "down")
      (.entry ⟨[("contract_type", ["services"])], 0⟩)).2.1 _ rfl
      (by norm_num [CACHE_TTL])⟩

/-! ## C6: the deadline helpers of `src/pages/Analytics.tsx`

Dates are millisecond timestamps.  `new Date(dateStr).getTime()` is the
environment's `parse` (returning `none` for an invalid-date `NaN`), and
`setHours(0, 0, 0, 0)` is the environment's `midnight` truncation; both are
ambient, timezone-dependent functions of the JavaScript runtime.  The
arithmetic itself is exact: the timestamps involved are far below 2^53, so
the double-precision division and `Math.ceil` compute the exact rational
ceiling. -/

/-- The ambient date functions of the JavaScript runtime. -/
structure DateEnv where
  parse : String → Option Int
  midnight : Int → Int

/-- A JavaScript number that is either `NaN` or an integer. -/
inductive JsNum where
  | nan
  | num (n : Int)
deriving DecidableEq

/-- `Math.ceil(a / d)` for an integer `a` and a positive integer literal
`d`, computed exactly. -/
def ceilDivInt (a : Int) (d : Nat) : Int := -((-a) / (d : Int))

theorem ceilDivInt_eq_ceil (a : Int) (d : Nat) :
    ceilDivInt a d = ⌈(a : ℚ) / (d : ℚ)⌉ := by
  have h1 : (⌈(a : ℚ) / (d : ℚ)⌉ : Int) = -⌊-((a : ℚ) / (d : ℚ))⌋ := by
    rw [Int.floor_neg]
    ring
  have h2 : -((a : ℚ) / (d : ℚ)) = ((-a : Int) : ℚ) / ((d : Nat) : ℚ) := by
    push_cast
    ring
  rw [h1, h2, Rat.floor_intCast_div_natCast]
  rfl

/-- `getDaysUntil` from `src/pages/Analytics.tsx`: `null` for a falsy date
string, otherwise `Math.ceil` of the millisecond difference between the
parsed date and the reference date truncated to midnight, divided by one
day. -/
def getDaysUntil (env : DateEnv) (dateStr : Option String) (referenceDate : Int) :
    Option JsNum :=
  match dateStr with
  | none => none
  | some s =>
    if s = "" then none
    else
      match env.parse s with
      | none => .some .nan
      | some d => .some (.num (ceilDivInt (d - env.midnight referenceDate) 86400000))

/-- `isWithinDays` from `src/pages/Analytics.tsx`: the parsed date lies
between the reference date truncated to midnight and that midnight plus
`days` 24-hour periods, inclusive (`false` for a falsy or unparseable date
string, matching the `NaN` comparisons). -/
def isWithinDays (env : DateEnv) (dateStr : Option String) (days : Int)
    (referenceDate : Int) : Bool :=
  match dateStr with
  | none => false
  | some s =>
    if s = "" then false
    else
      match env.parse s with
      | none => false
      | some d =>
        decide (env.midnight referenceDate ≤ d ∧
          d ≤ env.midnight referenceDate + days * 86400000)

/-- C6: `getDaysUntil` returns `null` exactly on falsy date strings and
otherwise (for a parseable date) the ceiling of (target time minus the
reference date truncated to midnight) / 86,400,000; `isWithinDays` is true
exactly when the target date lies between the reference midnight and that
midnight plus the given number of 24-hour periods, inclusive. -/
theorem deadline_helpers_spec (env : DateEnv) (ref : Int) :
    (getDaysUntil env none ref = none ∧ getDaysUntil env (some "") ref = none) ∧
    (∀ s d, s ≠ "" → env.parse s = some d →
      getDaysUntil env (some s) ref =
        some (.num ⌈((d : ℚ) - (env.midnight ref : ℚ)) / 86400000⌉)) ∧
    (isWithinDays env none 0 ref = false) ∧
    (∀ s d days, s ≠ "" → env.parse s = some d →
      (isWithinDays env (some s) days ref = true ↔
        env.midnight ref ≤ d ∧ d ≤ env.midnight ref + days * 86400000)) := by
  refine ⟨⟨rfl, rfl⟩, ?_, rfl, ?_⟩
  · intro s d hs hp
    have : ((d - env.midnight ref : Int) : ℚ) = (d : ℚ) - (env.midnight ref : ℚ) := by
      push_cast
      ring
    simp [getDaysUntil, hs, hp, ceilDivInt_eq_ceil, this]
  · intro s d days hs hp
    simp [isWithinDays, hs, hp]

/-- A concrete runtime for the witness: one known date string, midnight
truncation to multiples of a day. -/
def sampleDateEnv : DateEnv :=
  { parse := fun s => if s = "2013-10-03" then some 259200000 else none
    midnight := fun t => 86400000 * (t / 86400000) }

theorem deadline_helpers_spec_witness :
    getDaysUntil sampleDateEnv (some "2013-10-03") 90000000 = some (.num 2) ∧
    isWithinDays sampleDateEnv (some "2013-10-03") 2 90000000 = true := by
  have h := deadline_helpers_spec sampleDateEnv 90000000
  constructor
  · rw [h.2.1 "2013-10-03" 259200000 (by decide) rfl]
    norm_num [sampleDateEnv]
  · rw [h.2.2.2 "2013-10-03" 259200000 2 (by decide) rfl]
    norm_num [sampleDateEnv]

/-! ## C3: the SSE stream parser of the streaming `useChat` variant
(`src/unnamed/part_010`, `sendMessage`)

The read loop is embedded over `List Char`.  Each `reader.read()` chunk is
appended to `textBuffer`, and the inner `while` body is `processLines`:
split off complete newline-terminated lines, strip a trailing `'\r'`, skip
comment and blank lines, and for `data: ` lines either stop at `[DONE]`,
push the line back on a JSON-parse failure, or emit the extracted content.
`JSON.parse(jsonStr)` followed by `parsed.choices?.[0]?.delta?.content` is
abstracted by the ambient function `pl`: `none` when `JSON.parse` throws,
otherwise the optional content string. -/

/-- Character strings of the stream embedding. -/
abbrev Str := List Char

/-- `textBuffer.indexOf('\n')` with the two slices: the first complete line
and the remainder, when a newline exists. -/
def splitFirstLine : Str → Option (Str × Str)
  | [] => none
  | c :: t =>
    if c = '\n' then some ([], t)
    else
      match splitFirstLine t with
      | none => none
      | some (l, r) => some (c :: l, r)

theorem splitFirstLine_eq_none {s : Str} :
    splitFirstLine s = none ↔ '\n' ∉ s := by
  induction s with
  | nil => simp [splitFirstLine]
  | cons c t ih =>
    by_cases hc : c = '\n'
    · simp [splitFirstLine, hc]
    · rw [splitFirstLine, if_neg hc]
      match ht : splitFirstLine t with
      | none => simp [ht, ih.mp ht, Ne.symm hc, hc]
      | some (l, r) =>
        simp only [ht]
        constructor
        · intro h
          exact absurd h (by simp)
        · intro h
          have : '\n' ∉ t := fun hm => h (List.mem_cons_of_mem _ hm)
          rw [ih.mpr this] at ht
          exact absurd ht (by simp)

theorem splitFirstLine_spec {s l r : Str} (h : splitFirstLine s = some (l, r)) :
    s = l ++ '\n' :: r ∧ '\n' ∉ l := by
  induction s generalizing l r with
  | nil => simp [splitFirstLine] at h
  | cons c t ih =>
    by_cases hc : c = '\n'
    · rw [splitFirstLine, if_pos hc] at h
      obtain ⟨rfl, rfl⟩ := by simpa using h
      simp [hc]
    · rw [splitFirstLine, if_neg hc] at h
      match ht : splitFirstLine t with
      | none => rw [ht] at h; simp at h
      | some (l2, r2) =>
        rw [ht] at h
        obtain ⟨rfl, rfl⟩ := by simpa using h
        obtain ⟨hs, hnl⟩ := ih ht
        subst hs
        refine ⟨rfl, ?_⟩
        simp only [List.mem_cons, not_or]
        exact ⟨fun h => hc h.symm, hnl⟩

theorem splitFirstLine_append {l r : Str} (hl : '\n' ∉ l) :
    splitFirstLine (l ++ '\n' :: r) = some (l, r) := by
  induction l with
  | nil => simp [splitFirstLine]
  | cons c t ih =>
    have hc : c ≠ '\n' := fun h => hl (by simp [h])
    have ht : '\n' ∉ t := fun h => hl (List.mem_cons_of_mem _ h)
    rw [List.cons_append, splitFirstLine, if_neg hc, ih ht]

theorem splitFirstLine_length {s l r : Str} (h : splitFirstLine s = some (l, r)) :
    r.length < s.length := by
  obtain ⟨hs, _⟩ := splitFirstLine_spec h
  subst hs
  simp
  omega

/-- The whitespace removed by JavaScript's `String.prototype.trim` (only
the ASCII kinds occur in this code path). -/
def jsWS (c : Char) : Bool :=
  c = ' ' || c = '\t' || c = '\n' || c = '\r' || c = '\x0b' || c = '\x0c'

/-- `line.endsWith('\r') ? line.slice(0, -1) : line`. -/
def stripCR (l : Str) : Str :=
  match l.getLast? with
  | some c => if c = '\r' then l.dropLast else l
  | none => l

/-- `String.prototype.trim`. -/
def jsTrim (s : Str) : Str :=
  ((s.dropWhile jsWS).reverse.dropWhile jsWS).reverse

/-- The literal `"data: "`. -/
def dataTag : Str := ['d', 'a', 't', 'a', ':', ' ']

/-- The literal `"[DONE]"`. -/
def doneTok : Str := ['[', 'D', 'O', 'N', 'E', ']']

/-- What the loop body does with one complete, CR-stripped line. -/
inductive LineAct where
  | skip
  | stop
  | pushback
  | noemit
  | emit (c : Str)
deriving DecidableEq

/-- Classification of a CR-stripped line, mirroring the loop body's tests
in order: comment/blank skip, non-`data: ` skip, `[DONE]`, JSON-parse
failure, and content extraction (`if (content)` drops empty content). -/
def classify (pl : Str → Option (Option Str)) (l : Str) : LineAct :=
  if l.head? = some ':' ∨ jsTrim l = [] then .skip
  else if ¬ dataTag.isPrefixOf l then .skip
  else if jsTrim (l.drop 6) = doneTok then .stop
  else
    match pl (jsTrim (l.drop 6)) with
    | none => .pushback
    | some none => .noemit
    | some (some c) => if c = [] then .noemit else .emit c

/-- Classification of a raw line as the loop sees it (CR-strip first). -/
def lineAct (pl : Str → Option (Option Str)) (line : Str) : LineAct :=
  classify pl (stripCR line)

/-- One run of the inner `while` loop over the buffer, with an explicit
iteration bound (each iteration strictly shrinks the buffer, so
`buf.length` iterations always suffice; see `processLinesF_fuel`): consume
complete lines until none is left, `[DONE]` stops the pass, or a JSON-parse
failure pushes the (stripped) line back; returns the remaining buffer and
the emitted content chunks in order. -/
def processLinesF (pl : Str → Option (Option Str)) : Nat → Str → Str × List Str
  | 0, buf => (buf, [])
  | fuel + 1, buf =>
    match splitFirstLine buf with
    | none => (buf, [])
    | some (line, rest) =>
      match classify pl (stripCR line) with
      | .skip => processLinesF pl fuel rest
      | .noemit => processLinesF pl fuel rest
      | .emit c => ((processLinesF pl fuel rest).1, c :: (processLinesF pl fuel rest).2)
      | .stop => (rest, [])
      | .pushback => (stripCR line ++ '\n' :: rest, [])

/-- One run of the inner `while` loop over the buffer. -/
def processLines (pl : Str → Option (Option Str)) (buf : Str) : Str × List Str :=
  processLinesF pl buf.length buf

theorem processLinesF_fuel (pl : Str → Option (Option Str)) :
    ∀ f1 f2 buf, buf.length ≤ f1 → buf.length ≤ f2 →
      processLinesF pl f1 buf = processLinesF pl f2 buf := by
  intro f1
  induction f1 with
  | zero =>
    intro f2 buf h1 h2
    have hb : buf = [] := List.length_eq_zero.mp (Nat.le_zero.mp h1)
    subst hb
    cases f2 <;> simp [processLinesF, splitFirstLine]
  | succ a ih =>
    intro f2 buf h1 h2
    match f2 with
    | 0 =>
      have hb : buf = [] := List.length_eq_zero.mp (Nat.le_zero.mp h2)
      subst hb
      simp [processLinesF, splitFirstLine]
    | b + 1 =>
      rw [processLinesF, processLinesF]
      cases hs : splitFirstLine buf with
      | none => rfl
      | some p =>
        obtain ⟨line, rest⟩ := p
        have hlen := splitFirstLine_length hs
        have ha : rest.length ≤ a := by omega
        have hb2 : rest.length ≤ b := by omega
        dsimp only
        cases hc : classify pl (stripCR line) <;> dsimp only <;>
          first
            | rfl
            | exact ih b rest ha hb2
            | rw [ih b rest ha hb2]

theorem processLines_none (pl : Str → Option (Option Str)) {buf : Str}
    (h : splitFirstLine buf = none) : processLines pl buf = (buf, []) := by
  unfold processLines
  match hl : buf.length with
  | 0 => rfl
  | n + 1 => rw [processLinesF, h]

theorem processLines_step (pl : Str → Option (Option Str)) {buf line rest : Str}
    (h : splitFirstLine buf = some (line, rest)) :
    processLines pl buf =
      match classify pl (stripCR line) with
      | .skip => processLines pl rest
      | .noemit => processLines pl rest
      | .emit c => ((processLines pl rest).1, c :: (processLines pl rest).2)
      | .stop => (rest, [])
      | .pushback => (stripCR line ++ '\n' :: rest, []) := by
  have hlen := splitFirstLine_length h
  unfold processLines
  match hl : buf.length with
  | 0 => omega
  | n + 1 =>
    rw [processLinesF, h]
    have hn : rest.length ≤ n := by omega
    have hf := processLinesF_fuel pl n rest.length rest hn le_rfl
    dsimp only
    cases hc : classify pl (stripCR line) <;> dsimp only <;>
      first
        | rfl
        | rw [hf]

theorem processLines_skip (pl : Str → Option (Option Str)) {buf line rest : Str}
    (h : splitFirstLine buf = some (line, rest))
    (ha : classify pl (stripCR line) = .skip) :
    processLines pl buf = processLines pl rest := by
  rw [processLines_step pl h, ha]

theorem processLines_noemit (pl : Str → Option (Option Str)) {buf line rest : Str}
    (h : splitFirstLine buf = some (line, rest))
    (ha : classify pl (stripCR line) = .noemit) :
    processLines pl buf = processLines pl rest := by
  rw [processLines_step pl h, ha]

theorem processLines_emit (pl : Str → Option (Option Str)) {buf line rest : Str}
    {c : Str} (h : splitFirstLine buf = some (line, rest))
    (ha : classify pl (stripCR line) = .emit c) :
    processLines pl buf = ((processLines pl rest).1, c :: (processLines pl rest).2) := by
  rw [processLines_step pl h, ha]

theorem processLines_stop (pl : Str → Option (Option Str)) {buf line rest : Str}
    (h : splitFirstLine buf = some (line, rest))
    (ha : classify pl (stripCR line) = .stop) :
    processLines pl buf = (rest, []) := by
  rw [processLines_step pl h, ha]

theorem processLines_pushback (pl : Str → Option (Option Str)) {buf line rest : Str}
    (h : splitFirstLine buf = some (line, rest))
    (ha : classify pl (stripCR line) = .pushback) :
    processLines pl buf = (stripCR line ++ '\n' :: rest, []) := by
  rw [processLines_step pl h, ha]

/-- Appending one `reader.read()` chunk and running the inner loop. -/
def feedChunk (pl : Str → Option (Option Str)) (st : Str × List Str)
    (chunk : Str) : Str × List Str :=
  ((processLines pl (st.1 ++ chunk)).1, st.2 ++ (processLines pl (st.1 ++ chunk)).2)

/-- The whole read loop: fold the chunks through the buffer, collecting the
assistant-content updates. -/
def runStream (pl : Str → Option (Option Str)) (chunks : List Str) : List Str :=
  (chunks.foldl (feedChunk pl) ([], [])).2

/-- The complete (newline-terminated) lines of a buffer, with the same
iteration bound as `processLinesF`. -/
def completeLinesF : Nat → Str → List Str
  | 0, _ => []
  | fuel + 1, s =>
    match splitFirstLine s with
    | none => []
    | some (l, r) => l :: completeLinesF fuel r

/-- The complete (newline-terminated) lines of a buffer; the trailing
partial line is not among them. -/
def completeLines (s : Str) : List Str := completeLinesF s.length s

theorem completeLinesF_fuel :
    ∀ f1 f2 buf, buf.length ≤ f1 → buf.length ≤ f2 →
      completeLinesF f1 buf = completeLinesF f2 buf := by
  intro f1
  induction f1 with
  | zero =>
    intro f2 buf h1 h2
    have hb : buf = [] := List.length_eq_zero.mp (Nat.le_zero.mp h1)
    subst hb
    cases f2 <;> simp [completeLinesF, splitFirstLine]
  | succ a ih =>
    intro f2 buf h1 h2
    match f2 with
    | 0 =>
      have hb : buf = [] := List.length_eq_zero.mp (Nat.le_zero.mp h2)
      subst hb
      simp [completeLinesF, splitFirstLine]
    | b + 1 =>
      rw [completeLinesF, completeLinesF]
      cases hs : splitFirstLine buf with
      | none => rfl
      | some p =>
        obtain ⟨line, rest⟩ := p
        have hlen := splitFirstLine_length hs
        dsimp only
        rw [ih b rest (by omega) (by omega)]

theorem completeLines_none {s : Str} (h : splitFirstLine s = none) :
    completeLines s = [] := by
  unfold completeLines
  match hl : s.length with
  | 0 => rfl
  | n + 1 => rw [completeLinesF, h]

theorem completeLines_cons {s line rest : Str}
    (h : splitFirstLine s = some (line, rest)) :
    completeLines s = line :: completeLines rest := by
  have hlen := splitFirstLine_length h
  unfold completeLines
  match hl : s.length with
  | 0 => omega
  | n + 1 =>
    rw [completeLinesF, h]
    dsimp only
    rw [completeLinesF_fuel n rest.length rest (by omega) le_rfl]

/-- Whether a line action emits content. -/
def isEmitAct : LineAct → Bool
  | .emit _ => true
  | _ => false

/-- No line of the list emits content. -/
def noEmitLines (pl : Str → Option (Option Str)) (ls : List Str) : Bool :=
  ls.all (fun l => !(isEmitAct (lineAct pl l)))

/-- Every emitting line of the list comes before the first `[DONE]` line. -/
def okLines (pl : Str → Option (Option Str)) : List Str → Bool
  | [] => true
  | l :: ls => if lineAct pl l = .stop then noEmitLines pl ls else okLines pl ls

/-- No complete line of the stream after the first `[DONE]` line emits
content (the condition under which chunking cannot matter). -/
def okStream (pl : Str → Option (Option Str)) (s : Str) : Bool :=
  okLines pl (completeLines s)

/-- No complete line of the stream emits content. -/
def noEmitStream (pl : Str → Option (Option Str)) (s : Str) : Bool :=
  noEmitLines pl (completeLines s)

theorem okLines_of_noEmitLines (pl : Str → Option (Option Str)) :
    ∀ ls, noEmitLines pl ls = true → okLines pl ls = true := by
  intro ls
  induction ls with
  | nil => intro _; rfl
  | cons l ls ih =>
    intro h
    have htail : noEmitLines pl ls = true := by
      simp only [noEmitLines, List.all_cons, Bool.and_eq_true] at h
      exact h.2
    rw [okLines]
    split
    · exact htail
    · exact ih htail

theorem jsTrim_append_ws {w : Str} {c : Char} (h : jsWS c = true) :
    jsTrim (w ++ [c]) = jsTrim w := by
  unfold jsTrim
  rw [List.dropWhile_append]
  by_cases hw : (w.dropWhile jsWS).isEmpty
  · rw [if_pos hw]
    have hwnil : w.dropWhile jsWS = [] := List.isEmpty_iff.mp hw
    rw [hwnil]
    simp [List.dropWhile_cons_of_pos h]
  · rw [if_neg hw]
    rw [List.reverse_append]
    simp only [List.reverse_cons, List.reverse_nil, List.nil_append, List.singleton_append]
    rw [List.dropWhile_cons_of_pos h]

theorem all_ws_of_jsTrim_eq_nil {s : Str} (h : jsTrim s = []) :
    ∀ x ∈ s, jsWS x = true := by
  unfold jsTrim at h
  have h2 : (s.dropWhile jsWS).reverse.dropWhile jsWS = [] :=
    List.reverse_eq_nil_iff.mp h
  have h3 : ∀ x ∈ (s.dropWhile jsWS).reverse, jsWS x = true :=
    List.dropWhile_eq_nil_iff.mp h2
  intro x hx
  rw [← List.takeWhile_append_dropWhile jsWS s] at hx
  rcases List.mem_append.mp hx with h4 | h4
  · exact List.mem_takeWhile_imp h4
  · exact h3 x (List.mem_reverse.mpr h4)

theorem eq_dropLast_concat_of_getLast? {l : Str} {c : Char}
    (h : l.getLast? = some c) : l = l.dropLast ++ [c] := by
  have hne : l ≠ [] := by
    rintro rfl
    simp at h
  have h2 := List.dropLast_append_getLast hne
  rw [List.getLast?_eq_getLast l hne] at h
  obtain rfl : l.getLast hne = c := by simpa using h
  exact h2.symm

theorem stripCR_of_no_cr {l : Str} (h : ¬ l.getLast? = some '\r') :
    stripCR l = l := by
  unfold stripCR
  match hg : l.getLast? with
  | none => rfl
  | some c =>
    dsimp only
    rw [if_neg]
    intro hc
    exact h (hc ▸ hg)

/-- The branch conditions that make `classify` answer `pushback`. -/
theorem classify_pushback_elim {pl : Str → Option (Option Str)} {l : Str}
    (hc : classify pl l = .pushback) :
    ¬(l.head? = some ':' ∨ jsTrim l = []) ∧ dataTag.isPrefixOf l = true ∧
    jsTrim (l.drop 6) ≠ doneTok ∧ pl (jsTrim (l.drop 6)) = none := by
  by_cases h1 : l.head? = some ':' ∨ jsTrim l = []
  · rw [classify, if_pos h1] at hc
    simp at hc
  by_cases h2 : dataTag.isPrefixOf l
  · by_cases h3 : jsTrim (l.drop 6) = doneTok
    · rw [classify, if_neg h1, if_neg (not_not_intro h2), if_pos h3] at hc
      simp at hc
    · refine ⟨h1, h2, h3, ?_⟩
      rw [classify, if_neg h1, if_neg (not_not_intro h2), if_neg h3] at hc
      match hj : pl (jsTrim (l.drop 6)) with
      | none => rfl
      | some none => rw [hj] at hc; simp at hc
      | some (some c) =>
        rw [hj] at hc
        dsimp only at hc
        split at hc <;> simp at hc
  · rw [classify, if_neg h1, if_pos h2] at hc
    simp at hc

/-- A line classified `pushback` keeps that classification after another
CR-strip: the strip can only remove a trailing `'\r'`, which the `.trim()`
inside the classification already ignores.  This is what makes a pushed-back
line behave identically when it is re-examined on the next chunk. -/
theorem classify_stripCR_pushback {pl : Str → Option (Option Str)} {l : Str}
    (hc : classify pl l = .pushback) : classify pl (stripCR l) = .pushback := by
  by_cases hcr : l.getLast? = some '\r'
  case neg =>
    rw [stripCR_of_no_cr hcr]
    exact hc
  obtain ⟨h1, h2, h3, h4⟩ := classify_pushback_elim hc
  obtain ⟨t, ht⟩ := List.isPrefixOf_iff_prefix.mp h2
  have ht2 : t ≠ [] := by
    rintro rfl
    rw [← ht] at hcr
    simp [dataTag] at hcr
  have htlast : t.getLast? = some '\r' := by
    rw [← ht, List.getLast?_append] at hcr
    match hg : t.getLast? with
    | none => exact absurd (List.getLast?_eq_none_iff.mp hg) ht2
    | some c =>
      rw [hg] at hcr
      simpa using hcr
  have hstrip : stripCR l = dataTag ++ t.dropLast := by
    unfold stripCR
    rw [hcr]
    dsimp only
    rw [if_pos rfl, ← ht, List.dropLast_append_of_ne_nil _ ht2]
  have hdrop : l.drop 6 = t := by
    rw [← ht]
    exact List.drop_left dataTag t
  have hdrop2 : (dataTag ++ t.dropLast).drop 6 = t.dropLast :=
    List.drop_left dataTag t.dropLast
  have htrim : jsTrim t.dropLast = jsTrim (l.drop 6) := by
    rw [hdrop]
    conv_rhs => rw [eq_dropLast_concat_of_getLast? htlast]
    rw [jsTrim_append_ws (by decide)]
  rw [hstrip, classify]
  rw [if_neg]
  · rw [if_neg (not_not_intro (List.isPrefixOf_iff_prefix.mpr ⟨t.dropLast, rfl⟩))]
    rw [if_neg]
    · rw [hdrop2, htrim, h4]
    · rw [hdrop2, htrim]
      exact h3
  · rintro (hh | hh)
    · simp [dataTag] at hh
    · have := all_ws_of_jsTrim_eq_nil hh 'd' (by simp [dataTag])
      simp [jsWS] at this

theorem lineAct_eq_classify (pl : Str → Option (Option Str)) (line : Str) :
    lineAct pl line = classify pl (stripCR line) := rfl

theorem okLines_cons_not_stop {pl : Str → Option (Option Str)} {l : Str}
    {ls : List Str} (h : lineAct pl l ≠ .stop) :
    okLines pl (l :: ls) = okLines pl ls := by
  rw [okLines, if_neg h]

theorem okLines_cons_stop {pl : Str → Option (Option Str)} {l : Str}
    {ls : List Str} (h : lineAct pl l = .stop) :
    okLines pl (l :: ls) = noEmitLines pl ls := by
  rw [okLines, if_pos h]

theorem stripCR_sublist (l : Str) : (stripCR l).Sublist l := by
  unfold stripCR
  match l.getLast? with
  | none => exact List.Sublist.refl l
  | some c =>
    dsimp only
    split
    · exact List.dropLast_sublist l
    · exact List.Sublist.refl l

theorem not_mem_stripCR {l : Str} {c : Char} (h : c ∉ l) : c ∉ stripCR l :=
  fun hm => h ((stripCR_sublist l).subset hm)

/-- A pass over a buffer none of whose complete lines emits produces no
emissions (it can only skip lines, stop, or push a line back). -/
theorem processLines_no_emissions (pl : Str → Option (Option Str)) :
    ∀ n s, s.length = n → noEmitStream pl s = true →
      (processLines pl s).2 = [] := by
  intro n
  induction n using Nat.strong_induction_on with
  | _ n ih =>
    intro s hlen hne
    cases hs : splitFirstLine s with
    | none => rw [processLines_none pl hs]
    | some p =>
      obtain ⟨line, rest⟩ := p
      have hcl := completeLines_cons hs
      have hrlen := splitFirstLine_length hs
      unfold noEmitStream at hne
      rw [hcl] at hne
      simp only [noEmitLines, List.all_cons, Bool.and_eq_true] at hne
      have htail : noEmitStream pl rest = true := by
        unfold noEmitStream noEmitLines
        exact hne.2
      cases hc : classify pl (stripCR line) with
      | skip =>
        rw [processLines_skip pl hs hc]
        exact ih rest.length (by omega) rest rfl htail
      | noemit =>
        rw [processLines_noemit pl hs hc]
        exact ih rest.length (by omega) rest rfl htail
      | emit c =>
        have hact : isEmitAct (lineAct pl line) = true := by
          rw [lineAct_eq_classify, hc]
          rfl
        rw [hact] at hne
        simp at hne
      | stop => rw [processLines_stop pl hs hc]
      | pushback => rw [processLines_pushback pl hs hc]

/-- The composition step behind chunking-invariance: under the
no-emission-after-`[DONE]` condition, processing `x ++ y` in one pass emits
the same contents as processing `x` first and then the leftover buffer with
`y` appended, and the condition carries over to that leftover buffer. -/
theorem processLines_append (pl : Str → Option (Option Str)) :
    ∀ n x y, x.length = n → okStream pl (x ++ y) = true →
      (processLines pl (x ++ y)).2 =
        (processLines pl x).2 ++ (processLines pl ((processLines pl x).1 ++ y)).2 ∧
      okStream pl ((processLines pl x).1 ++ y) = true := by
  intro n
  induction n using Nat.strong_induction_on with
  | _ n ih =>
    intro x y hlen hok
    cases hx : splitFirstLine x with
    | none =>
      rw [processLines_none pl hx]
      exact ⟨by simp, hok⟩
    | some p =>
      obtain ⟨line, rest⟩ := p
      obtain ⟨hxeq, hnl⟩ := splitFirstLine_spec hx
      have hrlen := splitFirstLine_length hx
      have hxy : splitFirstLine (x ++ y) = some (line, rest ++ y) := by
        rw [hxeq, List.append_assoc, List.cons_append]
        exact splitFirstLine_append hnl
      have hclx : completeLines (x ++ y) = line :: completeLines (rest ++ y) :=
        completeLines_cons hxy
      cases hc : classify pl (stripCR line) with
      | skip =>
        have hok2 : okStream pl (rest ++ y) = true := by
          unfold okStream at hok ⊢
          rw [hclx, okLines_cons_not_stop (by simp [lineAct_eq_classify, hc])] at hok
          exact hok
        rw [processLines_skip pl hx hc, processLines_skip pl hxy hc]
        exact ih rest.length (by omega) rest y rfl hok2
      | noemit =>
        have hok2 : okStream pl (rest ++ y) = true := by
          unfold okStream at hok ⊢
          rw [hclx, okLines_cons_not_stop (by simp [lineAct_eq_classify, hc])] at hok
          exact hok
        rw [processLines_noemit pl hx hc, processLines_noemit pl hxy hc]
        exact ih rest.length (by omega) rest y rfl hok2
      | emit c =>
        have hok2 : okStream pl (rest ++ y) = true := by
          unfold okStream at hok ⊢
          rw [hclx, okLines_cons_not_stop (by simp [lineAct_eq_classify, hc])] at hok
          exact hok
        obtain ⟨he, hcond⟩ := ih rest.length (by omega) rest y rfl hok2
        rw [processLines_emit pl hx hc, processLines_emit pl hxy hc]
        exact ⟨by simpa using he, hcond⟩
      | stop =>
        have hne : noEmitStream pl (rest ++ y) = true := by
          unfold okStream at hok
          rw [hclx, okLines_cons_stop (by simp [lineAct_eq_classify, hc])] at hok
          exact hok
        rw [processLines_stop pl hx hc, processLines_stop pl hxy hc]
        have hE := processLines_no_emissions pl (rest ++ y).length (rest ++ y) rfl hne
        exact ⟨by simpa using hE.symm, okLines_of_noEmitLines pl _ hne⟩
      | pushback =>
        have hok2 : okStream pl (rest ++ y) = true := by
          unfold okStream at hok ⊢
          rw [hclx, okLines_cons_not_stop (by simp [lineAct_eq_classify, hc])] at hok
          exact hok
        rw [processLines_pushback pl hx hc, processLines_pushback pl hxy hc]
        have hnl2 : '\n' ∉ stripCR line := not_mem_stripCR hnl
        have hsplit2 : splitFirstLine ((stripCR line ++ '\n' :: rest) ++ y) =
            some (stripCR line, rest ++ y) := by
          rw [List.append_assoc, List.cons_append]
          exact splitFirstLine_append hnl2
        have hpb2 := classify_stripCR_pushback hc
        rw [processLines_pushback pl hsplit2 hpb2]
        refine ⟨by simp, ?_⟩
        unfold okStream
        rw [completeLines_cons hsplit2,
          okLines_cons_not_stop (by simp [lineAct_eq_classify, hpb2])]
        exact hok2

/-- Emissions of feeding the chunks one at a time starting from a given
buffer. -/
def runEmits (pl : Str → Option (Option Str)) (buf : Str) : List Str → List Str
  | [] => []
  | c :: cs =>
    (processLines pl (buf ++ c)).2 ++ runEmits pl (processLines pl (buf ++ c)).1 cs

theorem foldl_feedChunk (pl : Str → Option (Option Str)) :
    ∀ cs (buf : Str) (acc : List Str),
      (cs.foldl (feedChunk pl) (buf, acc)).2 = acc ++ runEmits pl buf cs := by
  intro cs
  induction cs with
  | nil =>
    intro buf acc
    simp [runEmits]
  | cons c cs ih =>
    intro buf acc
    rw [List.foldl_cons]
    show (cs.foldl (feedChunk pl)
      ((processLines pl (buf ++ c)).1, acc ++ (processLines pl (buf ++ c)).2)).2 = _
    rw [ih, runEmits]
    simp [List.append_assoc]

theorem runStream_eq_runEmits (pl : Str → Option (Option Str)) (cs : List Str) :
    runStream pl cs = runEmits pl [] cs := by
  unfold runStream
  rw [foldl_feedChunk]
  simp

/-- Feeding the chunks one at a time emits, under the condition, exactly
what a single pass over their concatenation emits. -/
theorem runEmits_flatten (pl : Str → Option (Option Str)) :
    ∀ cs (c buf : Str), okStream pl ((buf ++ c) ++ cs.flatten) = true →
      runEmits pl buf (c :: cs) = (processLines pl ((buf ++ c) ++ cs.flatten)).2 := by
  intro cs
  induction cs with
  | nil =>
    intro c buf hok
    rw [runEmits, runEmits]
    simp
  | cons c2 cs ih =>
    intro c buf hok
    rw [List.flatten_cons] at hok
    obtain ⟨hA1, hA2⟩ := processLines_append pl (buf ++ c).length (buf ++ c)
      (c2 ++ cs.flatten) rfl hok
    rw [runEmits]
    rw [ih c2 (processLines pl (buf ++ c)).1 (by rw [List.append_assoc]; exact hA2)]
    rw [List.flatten_cons, List.append_assoc]
    exact hA1.symm

theorem runStream_eq_one_pass (pl : Str → Option (Option Str)) (cs : List Str)
    (hok : okStream pl cs.flatten = true) :
    runStream pl cs = (processLines pl cs.flatten).2 := by
  match cs with
  | [] => rfl
  | c :: cs =>
    rw [runStream_eq_runEmits]
    have h := runEmits_flatten pl cs c []
    simp only [List.nil_append] at h
    rw [List.flatten_cons]
    exact h (by rw [← List.flatten_cons]; exact hok)

/-- The JSON-extraction oracle used by the C3 counterexample and witness:
the payload `a` parses with content `X`, everything else fails to parse. -/
def samplePl : Str → Option (Option Str) :=
  fun j => if j = ['a'] then some (some ['X']) else none

/-- C3 counterexample: two chunkings of the same upstream byte stream
produce different update sequences.  `[DONE]` only breaks out of the inner
line loop, so a content line after it in the same chunk stays in the buffer
(and is dropped when the stream ends), while the same line arriving in a
later chunk is processed and emitted. -/
theorem sse_chunking_dependent :
    "data: [DONE]\n".toList ++ "data: a\n".toList =
      "data: [DONE]\ndata: a\n".toList ∧
    runStream samplePl ["data: [DONE]\n".toList, "data: a\n".toList] ≠
      runStream samplePl ["data: [DONE]\ndata: a\n".toList] :=
  ⟨by decide, by decide⟩

/-- C3 (amended): the parser is line-buffered — a buffer without a newline
is left untouched, a comment/blank/non-`data: ` line is skipped, content is
extracted from `data: ` lines, and `[DONE]` ends the current pass over the
buffer; and for every two chunkings of the same upstream byte stream in
which no content-bearing `data: ` line follows the first `[DONE]` line, the
resulting sequences of assistant-content updates are identical. -/
theorem sse_parser_spec :
    (∀ pl buf, splitFirstLine buf = none → processLines pl buf = (buf, [])) ∧
    (∀ pl line rest, '\n' ∉ line → lineAct pl line = .skip →
      processLines pl (line ++ '\n' :: rest) = processLines pl rest) ∧
    (∀ pl line rest c, '\n' ∉ line → lineAct pl line = .emit c →
      processLines pl (line ++ '\n' :: rest) =
        ((processLines pl rest).1, c :: (processLines pl rest).2)) ∧
    (∀ pl line rest, '\n' ∉ line → lineAct pl line = .stop →
      processLines pl (line ++ '\n' :: rest) = (rest, [])) ∧
    (∀ pl cs1 cs2, cs1.flatten = cs2.flatten →
      okStream pl cs1.flatten = true → runStream pl cs1 = runStream pl cs2) := by
  refine ⟨?_, ?_, ?_, ?_, ?_⟩
  · intro pl buf h
    exact processLines_none pl h
  · intro pl line rest h ha
    exact processLines_skip pl (splitFirstLine_append h) ha
  · intro pl line rest c h ha
    exact processLines_emit pl (splitFirstLine_append h) ha
  · intro pl line rest h ha
    exact processLines_stop pl (splitFirstLine_append h) ha
  · intro pl cs1 cs2 hflat hok
    rw [runStream_eq_one_pass pl cs1 hok, runStream_eq_one_pass pl cs2 (hflat ▸ hok),
      hflat]

theorem sse_parser_spec_witness :
    runStream samplePl [": keepalive\n".toList, "data: a\nda".toList] =
      runStream samplePl [": keepalive\ndata: a\nda".toList] ∧
    processLines samplePl "data".toList = ("data".toList, []) :=
  ⟨sse_parser_spec.2.2.2.2 samplePl [": keepalive\n".toList, "data: a\nda".toList]
      [": keepalive\ndata: a\nda".toList] (by decide) (by decide),
   sse_parser_spec.1 samplePl "data".toList (by decide)⟩

end ContractApp
